import Mathlib

/-!
# Verification of the `scanner` repository

A shallow embedding of the scanner's two subsystems (the random-mnemonic
Generator and the Bitcoin Puzzle #71 Hunter), their shared utilities
(`src/puzzleweb/utils.py`, `src/generator/config.py`), the status-file
persistence layer, and the monitoring dashboard (`src/dashboard/app.py`).

Machine integers are modelled as `ℕ`/`ℤ` (Python integers are unbounded),
floating-point quantities as `ℚ`, byte strings as `List ℕ` with every
element below 256, fallible operations as `Option`/`Except`, and the
effectful main loops as explicit state-passing over event traces.
-/

namespace Scanner

/-! ## Configuration constants
From `src/puzzleweb/utils.py` lines 10-11 and `src/generator/config.py`. -/

def PUZZLE_71_MIN : ℕ := 0x400000000000000000

def PUZZLE_71_MAX : ℕ := 0x7fffffffffffffffff

def MAX_API_CALLS : ℕ := 2000000

def MAX_RETRIES : ℕ := 3

def RETRY_DELAY : ℕ := 5

/-! ## Puzzle key generation (`generate_puzzle71_private_key`, utils.py 60-69)

The Python function loops drawing `secrets.randbits(range_bits)` until the
draw is below `range_size`.  We embed it over an explicit list of raw draws
(the random-bit stream): the function scans the stream and returns
`PUZZLE_71_MIN +` the first accepted draw, `none` if every supplied draw is
rejected. -/

def range_size : ℕ := PUZZLE_71_MAX - PUZZLE_71_MIN + 1

/-- `range_size.bit_length()` in the source; Python's `bit_length` is `Nat.size`. -/
def range_bits : ℕ := Nat.size range_size

def generate_puzzle71_private_key : List ℕ → Option ℕ
  | [] => none
  | v :: rest =>
    if v < range_size then some (PUZZLE_71_MIN + v)
    else generate_puzzle71_private_key rest

/-! ## Puzzle status record (`write_status`, src/puzzleweb/puzzle_btc.py 66-108)

Float arithmetic is modelled exactly over `ℚ`. -/

structure PuzzleStatus where
  keys_checked : ℕ
  total_keys_tested : ℕ
  keys_per_second : ℚ
  elapsed_seconds : ℚ
  coverage_session_percent : ℚ
  coverage_global_percent : ℚ
  eta_full_range_seconds : ℚ
  found : Bool
deriving DecidableEq

def puzzle_write_status (keys_checked total_keys : ℕ) (elapsed : ℚ) (found : Bool) :
    PuzzleStatus :=
  let speed : ℚ := if 0 < elapsed then (keys_checked : ℚ) / elapsed else 0
  let rs : ℚ := (range_size : ℚ)
  let coverage_session : ℚ := if 0 < rs then (keys_checked : ℚ) / rs * 100 else 0
  let coverage_global : ℚ := if 0 < rs then (total_keys : ℚ) / rs * 100 else 0
  let eta : ℚ :=
    if 0 < speed then
      (if 0 < rs - (total_keys : ℚ) then (rs - (total_keys : ℚ)) / speed else 0)
    else 0
  { keys_checked := keys_checked
    total_keys_tested := total_keys
    keys_per_second := speed
    elapsed_seconds := elapsed
    coverage_session_percent := coverage_session
    coverage_global_percent := coverage_global
    eta_full_range_seconds := eta
    found := found }

lemma range_size_eq : range_size = 2 ^ 70 := by decide

lemma range_size_cast_pos : (0 : ℚ) < (range_size : ℚ) := by
  have : 0 < range_size := by rw [range_size_eq]; positivity
  exact_mod_cast this

/-- **C1.** Every key returned by `generate_puzzle71_private_key` lies in
`[PUZZLE_71_MIN, PUZZLE_71_MAX]`; the function draws `range_size.bit_length()`
= 71 random bits, accepts a draw exactly when it does not exceed
`range_size - 1` (re-drawing otherwise), returns `PUZZLE_71_MIN` plus the
first accepted draw, and each in-range key arises from exactly one accepted
raw value. -/
theorem generate_puzzle71_key_correct :
    (range_bits = Nat.size range_size ∧ range_bits = 71) ∧
    (∀ draws k, generate_puzzle71_private_key draws = some k →
      PUZZLE_71_MIN ≤ k ∧ k ≤ PUZZLE_71_MAX) ∧
    (∀ v rest, v ≤ range_size - 1 →
      generate_puzzle71_private_key (v :: rest) = some (PUZZLE_71_MIN + v)) ∧
    (∀ v rest, range_size - 1 < v →
      generate_puzzle71_private_key (v :: rest) = generate_puzzle71_private_key rest) ∧
    (∀ k, PUZZLE_71_MIN ≤ k → k ≤ PUZZLE_71_MAX →
      ∃! v, v < range_size ∧ PUZZLE_71_MIN + v = k) := by
  have hmin : PUZZLE_71_MIN = 2 ^ 70 := by decide
  have hmax : PUZZLE_71_MAX = 2 ^ 71 - 1 := by decide
  refine ⟨⟨rfl, ?_⟩, ?_, ?_, ?_, ?_⟩
  · rw [range_bits, range_size_eq, Nat.size_pow]
  · intro draws
    induction draws with
    | nil => intro k h; simp [generate_puzzle71_private_key] at h
    | cons v rest ih =>
      intro k h
      by_cases hv : v < range_size
      · simp only [generate_puzzle71_private_key, if_pos hv, Option.some.injEq] at h
        subst h
        rw [range_size_eq] at hv
        constructor
        · exact Nat.le_add_right _ _
        · rw [hmin, hmax] at *; omega
      · simp only [generate_puzzle71_private_key, if_neg hv] at h
        exact ih k h
  · intro v rest hv
    have hv' : v < range_size := by
      have : 0 < range_size := by rw [range_size_eq]; positivity
      omega
    simp [generate_puzzle71_private_key, hv']
  · intro v rest hv
    have hv' : ¬ v < range_size := by
      have : 0 < range_size := by rw [range_size_eq]; positivity
      omega
    simp [generate_puzzle71_private_key, hv']
  · intro k hk1 hk2
    refine ⟨k - PUZZLE_71_MIN, ⟨?_, ?_⟩, ?_⟩
    · rw [range_size_eq, hmin] at *; rw [hmax] at hk2; omega
    · omega
    · intro w ⟨_, hw2⟩; omega

/-- Concrete instantiation of `generate_puzzle71_key_correct`: the stream
`[2 ^ 70, 5]` has its first draw rejected and its second accepted. -/
theorem generate_puzzle71_key_correct_witness :
    (PUZZLE_71_MIN ≤ PUZZLE_71_MIN + 5 ∧ PUZZLE_71_MIN + 5 ≤ PUZZLE_71_MAX) ∧
    generate_puzzle71_private_key [2 ^ 70, 5] = some (PUZZLE_71_MIN + 5) := by
  constructor
  · exact generate_puzzle71_key_correct.2.1 [2 ^ 70, 5] (PUZZLE_71_MIN + 5) (by decide)
  · decide

/-- **C2.** In every status record produced by the Puzzle Hunter's
`write_status`: the speed is `keys_checked / elapsed` (0 when elapsed is not
positive), `coverage_session_percent = keys_checked / range_size * 100`,
`coverage_global_percent = total_keys / range_size * 100`, and
`eta_full_range_seconds = (range_size - total_keys) / speed` when the speed is
positive and the remainder positive, and 0 when the speed is 0 or the range is
already exceeded. -/
theorem puzzle_write_status_coverage_eta (k t : ℕ) (e : ℚ) (f : Bool) :
    (puzzle_write_status k t e f).keys_per_second
        = (if 0 < e then (k : ℚ) / e else 0) ∧
    (puzzle_write_status k t e f).coverage_session_percent
        = (k : ℚ) / (range_size : ℚ) * 100 ∧
    (puzzle_write_status k t e f).coverage_global_percent
        = (t : ℚ) / (range_size : ℚ) * 100 ∧
    (0 < (puzzle_write_status k t e f).keys_per_second →
      0 < (range_size : ℚ) - (t : ℚ) →
      (puzzle_write_status k t e f).eta_full_range_seconds
        = ((range_size : ℚ) - (t : ℚ)) / (puzzle_write_status k t e f).keys_per_second) ∧
    ((puzzle_write_status k t e f).keys_per_second = 0 →
      (puzzle_write_status k t e f).eta_full_range_seconds = 0) ∧
    ((range_size : ℚ) - (t : ℚ) ≤ 0 →
      (puzzle_write_status k t e f).eta_full_range_seconds = 0) := by
  have hrs := range_size_cast_pos
  have hne : range_size ≠ 0 := by rw [range_size_eq]; positivity
  refine ⟨rfl, ?_, ?_, ?_, ?_, ?_⟩
  · simp [puzzle_write_status, if_pos hrs]
    exact fun h => absurd h hne
  · simp [puzzle_write_status, if_pos hrs]
    exact fun h => absurd h hne
  · intro hs hrem
    simp only [puzzle_write_status] at hs ⊢
    rw [if_pos hs, if_pos hrem]
  · intro hs
    simp only [puzzle_write_status] at hs ⊢
    rw [if_neg (by rw [hs]; exact lt_irrefl 0)]
  · intro hrem
    simp only [puzzle_write_status]
    by_cases hs : 0 < (if 0 < e then (k : ℚ) / e else 0)
    · rw [if_pos hs, if_neg (not_lt.mpr hrem)]
    · rw [if_neg hs]

/-- Concrete instantiation of `puzzle_write_status_coverage_eta` at
`keys_checked = 1`, `total_keys = 0`, `elapsed = 1`. -/
theorem puzzle_write_status_coverage_eta_witness :
    (puzzle_write_status 1 0 1 false).eta_full_range_seconds
      = ((range_size : ℚ) - (0 : ℕ)) / (puzzle_write_status 1 0 1 false).keys_per_second := by
  have h := (puzzle_write_status_coverage_eta 1 0 1 false).2.2.2.1
  have hs : 0 < (puzzle_write_status 1 0 1 false).keys_per_second := by
    have h1 := (puzzle_write_status_coverage_eta 1 0 1 false).1
    rw [h1, if_pos (by norm_num : (0 : ℚ) < 1)]
    norm_num
  have hrem : 0 < (range_size : ℚ) - ((0 : ℕ) : ℚ) := by
    simpa using range_size_cast_pos
  exact h hs hrem

/-! ## Generator status record (`write_status`, src/generator/crypto_balance_checker.py 98-123)

The source computes `total_global = total_start + total_checked` inside
`write_status` and stores it as `total_keys_tested`. -/

structure GenStatus where
  keys_tested : ℕ
  total_keys_tested : ℕ
  eth_hits : ℕ
  btc_hits : ℕ
  speed_keys_per_sec : ℚ
  elapsed_seconds : ℚ
deriving DecidableEq

def generator_write_status (total_checked eth_hits btc_hits : ℕ) (elapsed : ℚ)
    (total_start : ℕ) : GenStatus :=
  { keys_tested := total_checked
    total_keys_tested := total_start + total_checked
    eth_hits := eth_hits
    btc_hits := btc_hits
    speed_keys_per_sec := if 0 < elapsed then (total_checked : ℚ) / elapsed else 0
    elapsed_seconds := elapsed }

/-! ## Main-loop traces (src/puzzleweb/puzzle_btc.py 134-261,
src/generator/crypto_balance_checker.py 210-325)

Each loop is embedded as a fold over an event trace.  A `key` event is one
key processed by the Puzzle Hunter (emitting a `found = true` status write on
a target match, puzzle_btc.py 199-205); a `statusTick` event is the 30-second
periodic write (puzzle_btc.py 224-230).  Status writes are recorded as pairs
of (session counter at the moment of the write, record written):
every call site passes `keys_checked` and `total_start + keys_checked`
(puzzle_btc.py 199-205, 224-230, 235-241, 244-250). -/

structure PuzzleState where
  keys_checked : ℕ
  matches_found : ℕ

inductive PuzzleEvent where
  | key (isMatch : Bool) (elapsed : ℚ)
  | statusTick (elapsed : ℚ)

def puzzleStep (total_start : ℕ) (s : PuzzleState) :
    PuzzleEvent → PuzzleState × List (ℕ × PuzzleStatus)
  | .key m e =>
    let k := s.keys_checked + 1
    let mf := if m then s.matches_found + 1 else s.matches_found
    (⟨k, mf⟩,
      if m then [(k, puzzle_write_status k (total_start + k) e true)] else [])
  | .statusTick e =>
    (s, [(s.keys_checked,
          puzzle_write_status s.keys_checked (total_start + s.keys_checked) e
            (decide (0 < s.matches_found)))])

def puzzleRun (total_start : ℕ) :
    PuzzleState → List PuzzleEvent → PuzzleState × List (ℕ × PuzzleStatus)
  | s, [] => (s, [])
  | s, ev :: evs =>
    let st := puzzleStep total_start s ev
    let rest := puzzleRun total_start st.1 evs
    (rest.1, st.2 ++ rest.2)

/-- The puzzle process: run the loop, then perform the final shutdown write
(puzzle_btc.py 235-241 on interrupt, 244-250 on unhandled error: both call
`write_status keys_checked (total_start + keys_checked) ...`). -/
def puzzle_main_writes (total_start : ℕ) (events : List PuzzleEvent)
    (finalElapsed : ℚ) : List (ℕ × PuzzleStatus) :=
  let r := puzzleRun total_start ⟨0, 0⟩ events
  r.2 ++ [(r.1.keys_checked,
    puzzle_write_status r.1.keys_checked (total_start + r.1.keys_checked) finalElapsed
      (decide (0 < r.1.matches_found)))]

structure GenState where
  total_checked : ℕ
  eth_hits : ℕ
  btc_hits : ℕ

inductive GenEvent where
  | batch (n eh bh : ℕ)
  | statusTick (elapsed : ℚ)

inductive GenTermination where
  | interrupt (elapsed : ℚ)
  | fatal (msg : String)

def genStep (total_start : ℕ) (s : GenState) :
    GenEvent → GenState × List (ℕ × GenStatus)
  | .batch n eh bh => (⟨s.total_checked + n, s.eth_hits + eh, s.btc_hits + bh⟩, [])
  | .statusTick e =>
    (s, [(s.total_checked,
          generator_write_status s.total_checked s.eth_hits s.btc_hits e total_start)])

def genRun (total_start : ℕ) :
    GenState → List GenEvent → GenState × List (ℕ × GenStatus)
  | s, [] => (s, [])
  | s, ev :: evs =>
    let st := genStep total_start s ev
    let rest := genRun total_start st.1 evs
    (rest.1, st.2 ++ rest.2)

/-- The generator process: run the loop, then handle termination
(crypto_balance_checker.py 309-325).  A `KeyboardInterrupt` performs a final
status write; a fatal error performs none. -/
def generator_main_writes (total_start : ℕ) (events : List GenEvent)
    (term : GenTermination) : List (ℕ × GenStatus) :=
  let r := genRun total_start ⟨0, 0, 0⟩ events
  r.2 ++ (match term with
    | .interrupt e =>
      [(r.1.total_checked,
        generator_write_status r.1.total_checked r.1.eth_hits r.1.btc_hits e total_start)]
    | .fatal _ => [])

lemma puzzleRun_invariant (total_start : ℕ) (events : List PuzzleEvent) :
    ∀ s : PuzzleState, ∀ p ∈ (puzzleRun total_start s events).2,
      p.2.total_keys_tested = total_start + p.1 ∧ p.2.keys_checked = p.1 := by
  induction events with
  | nil => intro s p hp; simp [puzzleRun] at hp
  | cons ev evs ih =>
    intro s p hp
    simp only [puzzleRun, List.mem_append] at hp
    rcases hp with hp | hp
    · cases ev with
      | key m e =>
        simp only [puzzleStep] at hp
        cases m
        · simp at hp
        · rw [if_pos rfl, List.mem_singleton] at hp
          subst hp
          exact ⟨rfl, rfl⟩
      | statusTick e =>
        simp only [puzzleStep, List.mem_singleton] at hp
        subst hp
        exact ⟨rfl, rfl⟩
    · exact ih _ p hp

lemma genRun_invariant (total_start : ℕ) (events : List GenEvent) :
    ∀ s : GenState, ∀ p ∈ (genRun total_start s events).2,
      p.2.total_keys_tested = total_start + p.1 ∧ p.2.keys_tested = p.1 := by
  induction events with
  | nil => intro s p hp; simp [genRun] at hp
  | cons ev evs ih =>
    intro s p hp
    simp only [genRun, List.mem_append] at hp
    rcases hp with hp | hp
    · cases ev with
      | batch n eh bh => simp [genStep] at hp
      | statusTick e =>
        simp only [genStep, List.mem_singleton] at hp
        subst hp
        exact ⟨rfl, rfl⟩
    · exact ih _ p hp

/-- **C3.** In both subsystems, every status record persisted by the process
(periodic, threshold, match-triggered, and final shutdown writes) carries
`total_keys_tested = total_start + (session keys tested at the moment of the
write)`, with `total_start` fixed once at process start. -/
theorem total_keys_invariant :
    (∀ total_start events finalElapsed,
      ∀ p ∈ puzzle_main_writes total_start events finalElapsed,
        p.2.total_keys_tested = total_start + p.1 ∧ p.2.keys_checked = p.1) ∧
    (∀ total_start events term,
      ∀ p ∈ generator_main_writes total_start events term,
        p.2.total_keys_tested = total_start + p.1 ∧ p.2.keys_tested = p.1) := by
  constructor
  · intro total_start events finalElapsed p hp
    simp only [puzzle_main_writes, List.mem_append, List.mem_singleton] at hp
    rcases hp with hp | hp
    · exact puzzleRun_invariant total_start events _ p hp
    · subst hp; exact ⟨rfl, rfl⟩
  · intro total_start events term p hp
    simp only [generator_main_writes, List.mem_append] at hp
    rcases hp with hp | hp
    · exact genRun_invariant total_start events _ p hp
    · cases term with
      | interrupt e =>
        simp only [List.mem_singleton] at hp
        subst hp; exact ⟨rfl, rfl⟩
      | fatal msg => simp at hp

/-- Concrete instantiation of `total_keys_invariant`: a run of the Puzzle
Hunter from a persisted total of 500 with one matching key processed. -/
theorem total_keys_invariant_witness :
    ∀ p ∈ puzzle_main_writes 500 [.key true 1, .statusTick 2] 3,
      p.2.total_keys_tested = 500 + p.1 ∧ p.2.keys_checked = p.1 := by
  intro p hp
  exact total_keys_invariant.1 500 [.key true 1, .statusTick 2] 3 p hp

/-! ## Rate limiter (`RateLimiter`, src/puzzleweb/utils.py 16-40)

`wait` refuses the call once `total_calls` has reached `max_calls`; otherwise
it sleeps out the remainder of `min_interval` (time is passed explicitly: the
post-sleep clock is `last_call + min_interval` when the call arrived early)
and increments `total_calls`. -/

structure RateLimiter where
  min_interval : ℚ
  tokens : ℚ
  last_call : ℚ
  total_calls : ℕ
  max_calls : ℕ
deriving DecidableEq

def RateLimiter.init (min_interval : ℚ) : RateLimiter :=
  { min_interval := min_interval, tokens := 1, last_call := 0,
    total_calls := 0, max_calls := MAX_API_CALLS }

def RateLimiter.wait (s : RateLimiter) (now : ℚ) : Except String RateLimiter :=
  if s.max_calls ≤ s.total_calls then
    .error "Maximum API calls limit reached"
  else
    let wake := if now - s.last_call < s.min_interval then s.last_call + s.min_interval else now
    .ok { s with last_call := wake, total_calls := s.total_calls + 1 }

def waitSeq (s : RateLimiter) : List ℚ → Except String RateLimiter
  | [] => .ok s
  | t :: ts =>
    match s.wait t with
    | .ok s' => waitSeq s' ts
    | .error e => .error e

lemma wait_ok_total (s : RateLimiter) (now : ℚ) (s' : RateLimiter)
    (h : s.wait now = .ok s') :
    s'.total_calls = s.total_calls + 1 ∧ s'.max_calls = s.max_calls := by
  by_cases hc : s.max_calls ≤ s.total_calls
  · simp [RateLimiter.wait, hc] at h
  · simp only [RateLimiter.wait, if_neg hc, Except.ok.injEq] at h
    subst h
    exact ⟨rfl, rfl⟩

lemma waitSeq_ok_of_le (ts : List ℚ) :
    ∀ s : RateLimiter, s.total_calls + ts.length ≤ s.max_calls →
      ∃ s', waitSeq s ts = .ok s' ∧
        s'.total_calls = s.total_calls + ts.length ∧ s'.max_calls = s.max_calls := by
  induction ts with
  | nil => intro s _; exact ⟨s, rfl, by simp, rfl⟩
  | cons t ts ih =>
    intro s hle
    simp only [List.length_cons] at hle
    have hc : ¬ s.max_calls ≤ s.total_calls := by omega
    have hw : s.wait t = .ok
        { s with
          last_call := if t - s.last_call < s.min_interval then s.last_call + s.min_interval else t,
          total_calls := s.total_calls + 1 } := by
      simp [RateLimiter.wait, if_neg hc]
    obtain ⟨s', h1, h2, h3⟩ := ih
      { s with
        last_call := if t - s.last_call < s.min_interval then s.last_call + s.min_interval else t,
        total_calls := s.total_calls + 1 }
      (by show s.total_calls + 1 + ts.length ≤ s.max_calls; omega)
    have h2' : s'.total_calls = s.total_calls + 1 + ts.length := h2
    have h3' : s'.max_calls = s.max_calls := h3
    refine ⟨s', ?_, ?_, ?_⟩
    · simp only [waitSeq, hw]; exact h1
    · simp only [List.length_cons]; omega
    · exact h3'

lemma waitSeq_error_of_lt (ts : List ℚ) :
    ∀ s : RateLimiter, s.max_calls - s.total_calls < ts.length →
      ∃ msg, waitSeq s ts = .error msg := by
  induction ts with
  | nil => intro s h; simp at h
  | cons t ts ih =>
    intro s h
    by_cases hc : s.max_calls ≤ s.total_calls
    · refine ⟨"Maximum API calls limit reached", ?_⟩
      simp [waitSeq, RateLimiter.wait, hc]
    · have hw : s.wait t = .ok
          { s with
            last_call := if t - s.last_call < s.min_interval then s.last_call + s.min_interval else t,
            total_calls := s.total_calls + 1 } := by
        simp [RateLimiter.wait, if_neg hc]
      obtain ⟨msg, hmsg⟩ := ih
        { s with
          last_call := if t - s.last_call < s.min_interval then s.last_call + s.min_interval else t,
          total_calls := s.total_calls + 1 }
        (by
          show s.max_calls - (s.total_calls + 1) < ts.length
          simp only [List.length_cons] at h
          omega)
      refine ⟨msg, ?_⟩
      simp only [waitSeq, hw]
      exact hmsg

/-- **C5.** A `RateLimiter` with cumulative ceiling `c` grants at most `c`
calls: any sequence of at most `c` calls succeeds with the counter
incremented by one per call, every single granted call increments the counter
by exactly one, and any sequence longer than `c` ends in the fatal
limit-exceeded error. -/
theorem rate_limiter_ceiling (c : ℕ) (s : RateLimiter)
    (h0 : s.total_calls = 0) (hc : s.max_calls = c) :
    (∀ ts : List ℚ, ts.length ≤ c →
      ∃ s', waitSeq s ts = .ok s' ∧ s'.total_calls = ts.length ∧ s'.max_calls = c) ∧
    (∀ now s', s.wait now = .ok s' → s'.total_calls = s.total_calls + 1) ∧
    (∀ ts : List ℚ, c < ts.length → ∃ msg, waitSeq s ts = .error msg) := by
  refine ⟨?_, ?_, ?_⟩
  · intro ts hts
    obtain ⟨s', h1, h2, h3⟩ := waitSeq_ok_of_le ts s (by omega)
    exact ⟨s', h1, by omega, by omega⟩
  · intro now s' h
    exact (wait_ok_total s now s' h).1
  · intro ts hts
    exact waitSeq_error_of_lt ts s (by omega)

/-- Concrete instantiation of `rate_limiter_ceiling` with ceiling 3: the
first three calls are granted, a fourth call fails. -/
theorem rate_limiter_ceiling_witness :
    (∃ s', waitSeq ⟨1/4, 1, 0, 0, 3⟩ [0, 1, 2] = .ok s' ∧
      s'.total_calls = 3 ∧ s'.max_calls = 3) ∧
    (∃ msg, waitSeq ⟨1/4, 1, 0, 0, 3⟩ [0, 1, 2, 3] = .error msg) := by
  constructor
  · obtain ⟨s', h1, h2, h3⟩ :=
      (rate_limiter_ceiling 3 ⟨1/4, 1, 0, 0, 3⟩ rfl rfl).1 [0, 1, 2] (by decide)
    exact ⟨s', h1, by simpa using h2, h3⟩
  · exact (rate_limiter_ceiling 3 ⟨1/4, 1, 0, 0, 3⟩ rfl rfl).2.2 [0, 1, 2, 3] (by decide)

/-! ## BTC balance check (`check_btc_balance`, src/puzzleweb/utils.py 137-175)

The loop makes up to `MAX_RETRIES` attempts.  Each attempt's observable
outcome is one of: HTTP 429 (`rate429`); a successful response whose parsed
body either contains the queried address with `final_balance` in satoshis
(`success (some sat)`) or lacks the address (`success none`); or any raised
exception — timeout, `raise_for_status`, JSON error, or the rate limiter's
ceiling error — all caught by the bare `except` (`failure`).  On 429 or
exception before the last attempt the loop sleeps and retries; after the last
attempt it returns `None`.  The returned pair is (result, whether
`log_funds_found` was called). -/

inductive ApiResp where
  | rate429
  | success (body : Option ℕ)
  | failure
deriving DecidableEq

def check_btc_balance : List ApiResp → Option ℚ × Bool
  | [] => (none, false)
  | r :: rest =>
    match r with
    | .rate429 => if rest.isEmpty then (none, false) else check_btc_balance rest
    | .success (some sat) =>
      (some ((sat : ℚ) / 100000000), decide (0 < (sat : ℚ) / 100000000))
    | .success none => (some 0, false)
    | .failure => if rest.isEmpty then (none, false) else check_btc_balance rest

/-- Outcome of the first attempt whose HTTP response succeeded, if any. -/
def firstSuccessBody : List ApiResp → Option (Option ℕ)
  | [] => none
  | .success b :: _ => some b
  | _ :: rest => firstSuccessBody rest

lemma check_btc_balance_eq (rs : List ApiResp) :
    check_btc_balance rs =
      match firstSuccessBody rs with
      | none => (none, false)
      | some none => (some 0, false)
      | some (some sat) =>
        (some ((sat : ℚ) / 100000000), decide (0 < (sat : ℚ) / 100000000)) := by
  induction rs with
  | nil => rfl
  | cons r rest ih =>
    cases r with
    | rate429 =>
      rcases rest with _ | ⟨r', rest'⟩
      · rfl
      · simpa [check_btc_balance, firstSuccessBody] using ih
    | success b =>
      cases b <;> rfl
    | failure =>
      rcases rest with _ | ⟨r', rest'⟩
      · rfl
      · simpa [check_btc_balance, firstSuccessBody] using ih

/-- **C6.** `check_btc_balance` never propagates an exception (it is total
over every attempt trace) and obeys the retry policy: if all `MAX_RETRIES`
attempts are rate-limited, or all end in an exception, it returns no value;
if the first attempt with a successful response reports `sat` satoshis it
returns `sat / 100000000` and calls the found-funds logger exactly when that
balance is strictly positive. -/
theorem check_btc_balance_policy :
    (∀ rs : List ApiResp,
      check_btc_balance rs =
        match firstSuccessBody rs with
        | none => (none, false)
        | some none => (some 0, false)
        | some (some sat) =>
          (some ((sat : ℚ) / 100000000), decide (0 < (sat : ℚ) / 100000000))) ∧
    (∀ rs : List ApiResp, rs.length = MAX_RETRIES →
      (∀ r ∈ rs, r = .rate429) → check_btc_balance rs = (none, false)) ∧
    (∀ rs : List ApiResp, rs.length = MAX_RETRIES →
      (∀ r ∈ rs, r = .failure ∨ r = .rate429) → check_btc_balance rs = (none, false)) ∧
    (∀ rs : List ApiResp, ∀ sat : ℕ,
      firstSuccessBody rs = some (some sat) →
        check_btc_balance rs = (some ((sat : ℚ) / 100000000), decide (0 < sat))) ∧
    (∀ rs : List ApiResp,
      (check_btc_balance rs).2 = true ↔
        ∃ sat, firstSuccessBody rs = some (some sat) ∧ 0 < sat) := by
  have hdec : ∀ sat : ℕ, (decide (0 < (sat : ℚ) / 100000000)) = decide (0 < sat) := by
    intro sat
    have : (0 < (sat : ℚ) / 100000000) ↔ 0 < sat := by
      rw [div_pos_iff_of_pos_right (by norm_num)]
      exact_mod_cast Nat.cast_pos
    simp [this]
  have hnone : ∀ rs : List ApiResp, (∀ r ∈ rs, r = .failure ∨ r = .rate429) →
      firstSuccessBody rs = none := by
    intro rs
    induction rs with
    | nil => intro _; rfl
    | cons r rest ih =>
      intro h
      rcases h r (by simp) with h' | h' <;>
        · subst h'
          simpa [firstSuccessBody] using ih (fun x hx => h x (by simp [hx]))
  refine ⟨check_btc_balance_eq, ?_, ?_, ?_, ?_⟩
  · intro rs _ hall
    rw [check_btc_balance_eq, hnone rs (fun r hr => Or.inr (hall r hr))]
  · intro rs _ hall
    rw [check_btc_balance_eq, hnone rs hall]
  · intro rs sat h
    rw [check_btc_balance_eq, h]
    show (some ((sat : ℚ) / 100000000), decide (0 < (sat : ℚ) / 100000000))
        = (some ((sat : ℚ) / 100000000), decide (0 < sat))
    rw [hdec]
  · intro rs
    rw [check_btc_balance_eq]
    rcases hfs : firstSuccessBody rs with _ | ⟨_ | sat⟩
    · simp [hfs]
    · simp [hfs]
    · constructor
      · intro h
        refine ⟨sat, rfl, ?_⟩
        simpa using h
      · rintro ⟨sat', h1, h2⟩
        obtain rfl : sat = sat' := by simpa using h1
        simpa using h2

/-- Concrete instantiation of `check_btc_balance_policy`: three consecutive
HTTP 429 responses yield no value and no logging. -/
theorem check_btc_balance_policy_witness :
    check_btc_balance [.rate429, .rate429, .rate429] = (none, false) :=
  check_btc_balance_policy.2.1 [.rate429, .rate429, .rate429] (by decide) (by decide)

/-- **C10.** A successful (non-429, non-error) response whose parsed body
does not contain the queried address yields a confirmed zero balance
`some 0`, not `none`, and the found-funds logger is not called. -/
theorem check_btc_balance_missing_address (rest : List ApiResp) :
    check_btc_balance (.success none :: rest) = (some 0, false) := rfl

/-! ## Status-file persistence traces
(`save_total_keys` src/puzzleweb/puzzle_btc.py 58-63, `write_status`
puzzle_btc.py 103-108 and src/generator/crypto_balance_checker.py 118-123)

Each persistence routine is embedded as the list of filesystem operations it
performs: a plain (interruptible, possibly partially observable) file write,
and `os.replace`, which atomically moves the source over the destination.
Document contents are abstract (`α`). -/

def PUZ_STATUS_PATH : String := "puzzleweb/status.json"

def PUZ_TOTAL_KEYS_FILE : String := "puzzleweb/total_keys_puzzle.json"

def GEN_STATUS_PATH : String := "generator/status.json"

def GEN_TOTAL_KEYS_FILE : String := "generator/total_keys_generator.json"

inductive FsOp (α : Type) where
  | fwrite (path : String) (content : α)
  | osReplace (src dst : String)

/-- `save_total_keys` (puzzle_btc.py 58-63): write the document to the
`.tmp` sibling, then `os.replace` it over the target. -/
def puzzle_save_total_keys_ops {α : Type} (doc : α) : List (FsOp α) :=
  [.fwrite (PUZ_TOTAL_KEYS_FILE ++ ".tmp") doc,
   .osReplace (PUZ_TOTAL_KEYS_FILE ++ ".tmp") PUZ_TOTAL_KEYS_FILE]

/-- Puzzle `write_status` (puzzle_btc.py 103-108): temp-write and replace the
status file, then call `save_total_keys`. -/
def puzzle_write_status_ops {α : Type} (statusDoc totalDoc : α) : List (FsOp α) :=
  [.fwrite (PUZ_STATUS_PATH ++ ".tmp") statusDoc,
   .osReplace (PUZ_STATUS_PATH ++ ".tmp") PUZ_STATUS_PATH] ++
  puzzle_save_total_keys_ops totalDoc

/-- Generator `write_status` + `save_total_keys`
(crypto_balance_checker.py 90-95, 118-123). -/
def generator_write_status_ops {α : Type} (statusDoc totalDoc : α) : List (FsOp α) :=
  [.fwrite (GEN_STATUS_PATH ++ ".tmp") statusDoc,
   .osReplace (GEN_STATUS_PATH ++ ".tmp") GEN_STATUS_PATH,
   .fwrite (GEN_TOTAL_KEYS_FILE ++ ".tmp") totalDoc,
   .osReplace (GEN_TOTAL_KEYS_FILE ++ ".tmp") GEN_TOTAL_KEYS_FILE]

def applyOp {α : Type} (fs : String → Option α) : FsOp α → String → Option α
  | .fwrite p c, q => if q = p then some c else fs q
  | .osReplace src dst, q =>
    if q = dst then fs src else if q = src then none else fs q

def runOps {α : Type} (fs : String → Option α) : List (FsOp α) → String → Option α
  | [] => fs
  | op :: ops => runOps (applyOp fs op) ops

/-- `true` when some plain (non-atomic) write in the trace targets `target`
directly: such a write is the only way a reader could observe a partially
written file at `target`. -/
def writesTo {α : Type} (target : String) : List (FsOp α) → Bool
  | [] => false
  | .fwrite p _ :: ops => p == target || writesTo target ops
  | .osReplace _ _ :: ops => writesTo target ops

/-- **C7.** Every persistence of a status or total-keys file in both
subsystems first writes the complete document to a temporary sibling path and
only then atomically replaces the target: no plain write ever targets the
final path, and after every prefix of the operation trace the target path
holds either its previous complete document or the new complete document. -/
theorem atomic_status_persistence {α : Type} (fs : String → Option α)
    (sdoc tdoc gsdoc gtdoc : α) :
    writesTo PUZ_STATUS_PATH (puzzle_write_status_ops sdoc tdoc) = false ∧
    writesTo PUZ_TOTAL_KEYS_FILE (puzzle_write_status_ops sdoc tdoc) = false ∧
    writesTo GEN_STATUS_PATH (generator_write_status_ops gsdoc gtdoc) = false ∧
    writesTo GEN_TOTAL_KEYS_FILE (generator_write_status_ops gsdoc gtdoc) = false ∧
    (∀ i, runOps fs ((puzzle_write_status_ops sdoc tdoc).take i) PUZ_STATUS_PATH
            = fs PUZ_STATUS_PATH
        ∨ runOps fs ((puzzle_write_status_ops sdoc tdoc).take i) PUZ_STATUS_PATH
            = some sdoc) ∧
    (∀ i, runOps fs ((puzzle_write_status_ops sdoc tdoc).take i) PUZ_TOTAL_KEYS_FILE
            = fs PUZ_TOTAL_KEYS_FILE
        ∨ runOps fs ((puzzle_write_status_ops sdoc tdoc).take i) PUZ_TOTAL_KEYS_FILE
            = some tdoc) ∧
    (∀ i, runOps fs ((generator_write_status_ops gsdoc gtdoc).take i) GEN_STATUS_PATH
            = fs GEN_STATUS_PATH
        ∨ runOps fs ((generator_write_status_ops gsdoc gtdoc).take i) GEN_STATUS_PATH
            = some gsdoc) ∧
    (∀ i, runOps fs ((generator_write_status_ops gsdoc gtdoc).take i) GEN_TOTAL_KEYS_FILE
            = fs GEN_TOTAL_KEYS_FILE
        ∨ runOps fs ((generator_write_status_ops gsdoc gtdoc).take i) GEN_TOTAL_KEYS_FILE
            = some gtdoc) := by
  refine ⟨rfl, rfl, rfl, rfl, ?_, ?_, ?_, ?_⟩ <;>
    · intro i
      match i with
      | 0 => left; rfl
      | 1 =>
        simp +decide [puzzle_write_status_ops, puzzle_save_total_keys_ops,
          generator_write_status_ops, runOps, applyOp, List.take]
      | 2 =>
        simp +decide [puzzle_write_status_ops, puzzle_save_total_keys_ops,
          generator_write_status_ops, runOps, applyOp, List.take]
      | 3 =>
        simp +decide [puzzle_write_status_ops, puzzle_save_total_keys_ops,
          generator_write_status_ops, runOps, applyOp, List.take]
      | (n + 4) =>
        rw [List.take_of_length_le (by
          simp [puzzle_write_status_ops, puzzle_save_total_keys_ops,
            generator_write_status_ops])]
        simp +decide [puzzle_write_status_ops, puzzle_save_total_keys_ops,
          generator_write_status_ops, runOps, applyOp]

/-! ## Dashboard status endpoint (`api_status`, src/dashboard/app.py 422-440)

JSON values are embedded as a small inductive.  `read_json` returns the
parsed document, or nothing when the file is absent or unparsable (the bare
`except` in app.py 426-427); `api_status` substitutes an empty object for a
missing record and adds the server timestamp. -/

inductive JVal where
  | obj (fields : List (String × JVal))
  | num (q : ℚ)

inductive DiskFile where
  | absent
  | unparsable
  | ok (j : JVal)

def read_json : DiskFile → Option JVal
  | .absent => none
  | .unparsable => none
  | .ok j => some j

def api_status (gen puz : DiskFile) (server_time : ℚ) : JVal :=
  .obj [("generator", (read_json gen).getD (.obj [])),
        ("puzzle", (read_json puz).getD (.obj [])),
        ("server_time", .num server_time)]

def JVal.keys : JVal → List String
  | .obj fields => fields.map Prod.fst
  | .num _ => []

def JVal.getField : JVal → String → Option JVal
  | .obj fields, k => (fields.find? (fun p => p.1 == k)).map Prod.snd
  | .num _, _ => none

/-- **C8 counterexample.** At a concrete input (both status files absent,
server time 0) the `/api/status` response has exactly the members
`generator`, `puzzle` and `server_time`: it contains no `system` block, so
the claim that every response carries host CPU/RAM/temperature metrics is
false of this code. -/
theorem api_status_no_system_block :
    (api_status .absent .absent 0).keys = ["generator", "puzzle", "server_time"] ∧
    ((api_status .absent .absent 0).keys.contains "system") = false := by
  exact ⟨rfl, rfl⟩

/-- **C8 (amended).** Every `/api/status` response is a JSON object with
exactly the members `generator` (the generator status record, an empty record
when the file is absent or unparsable), `puzzle` (likewise), and the server
timestamp `server_time`; no `system` block is present. -/
theorem api_status_fields (gen puz : DiskFile) (t : ℚ) :
    (api_status gen puz t).keys = ["generator", "puzzle", "server_time"] ∧
    (api_status gen puz t).getField "generator"
        = some ((read_json gen).getD (.obj [])) ∧
    (api_status gen puz t).getField "puzzle"
        = some ((read_json puz).getD (.obj [])) ∧
    (api_status gen puz t).getField "server_time" = some (.num t) ∧
    read_json .absent = none ∧
    read_json .unparsable = none ∧
    (∀ j, read_json (.ok j) = some j) ∧
    ((api_status gen puz t).keys.contains "system") = false := by
  refine ⟨rfl, rfl, rfl, rfl, rfl, rfl, fun j => rfl, rfl⟩

/-! ## Generator shutdown behaviour (crypto_balance_checker.py 309-325)

The two top-level handlers of `main_async` are embedded as the list of
effects each performs together with the process exit code.  The
`KeyboardInterrupt` handler prints, flushes the log buffer, writes a final
status record and returns 0; the generic `Exception` handler prints, flushes
the log buffer and returns 1 — it performs no status write. -/

inductive GenEffect where
  | statusWrite (r : GenStatus)
  | flushLog
  | printLine (msg : String)
deriving DecidableEq

def generator_shutdown (term : GenTermination) (total_start : ℕ) (s : GenState) :
    List GenEffect × ℕ :=
  match term with
  | .interrupt e =>
    ([.printLine "Received Ctrl+C, stopping gracefully...",
      .flushLog,
      .statusWrite (generator_write_status s.total_checked s.eth_hits s.btc_hits e total_start)],
     0)
  | .fatal msg =>
    ([.printLine ("Fatal error occurred: " ++ msg), .flushLog], 1)

def containsStatusWrite : List GenEffect → Bool
  | [] => false
  | .statusWrite _ :: _ => true
  | _ :: es => containsStatusWrite es

/-- **C9 counterexample.** At a concrete fatal error (message `"boom"`, 5
session keys tested), the Generator's top-level exception handler flushes the
log buffer and exits with code 1 but performs no status write at all — the
claim that a final status record is written on an unhandled exception is
false of this code. -/
theorem generator_fatal_no_status_write :
    (generator_shutdown (.fatal "boom") 0 ⟨5, 0, 0⟩).2 = 1 ∧
    (generator_shutdown (.fatal "boom") 0 ⟨5, 0, 0⟩).1.contains .flushLog = true ∧
    containsStatusWrite (generator_shutdown (.fatal "boom") 0 ⟨5, 0, 0⟩).1 = false := by
  exact ⟨rfl, rfl, rfl⟩

/-- **C9 (amended).** When an unhandled exception (other than the
graceful-interrupt signal) escapes the Generator main loop, the process
prints the error, flushes the log buffer and exits with failure code 1; it
does not write a final status record (in contrast with the interrupt path,
which does). -/
theorem generator_fatal_flushes_and_exits_one (msg : String) (total_start : ℕ)
    (s : GenState) (e : ℚ) :
    generator_shutdown (.fatal msg) total_start s
        = ([.printLine ("Fatal error occurred: " ++ msg), .flushLog], 1) ∧
    containsStatusWrite (generator_shutdown (.fatal msg) total_start s).1 = false ∧
    containsStatusWrite (generator_shutdown (.interrupt e) total_start s).1 = true := by
  exact ⟨rfl, rfl, rfl⟩

/-! ## Base58 encoding (`base58_encode`, src/puzzleweb/utils.py 116-134)

Byte strings are `List ℕ` with every element below 256.  The source's
divmod loop is embedded with an explicit structural fuel (the loop variable
`num` strictly decreases, so `num` itself bounds the iteration count); the
decoder is the reference definition of the spec's convention: strip one
leading `'1'` per leading zero byte, read the remaining digits as a base-58
number, and lay the number back out as big-endian bytes. -/

def alphabet : List Char :=
  ['1', '2', '3', '4', '5', '6', '7', '8', '9', 'A', 'B', 'C', 'D', 'E', 'F',
   'G', 'H', 'J', 'K', 'L', 'M', 'N', 'P', 'Q', 'R', 'S', 'T', 'U', 'V', 'W',
   'X', 'Y', 'Z', 'a', 'b', 'c', 'd', 'e', 'f', 'g', 'h', 'i', 'j', 'k', 'm',
   'n', 'o', 'p', 'q', 'r', 's', 't', 'u', 'v', 'w', 'x', 'y', 'z']

def alph (d : ℕ) : Char := alphabet.getD d '?'

def b58digitsAux : ℕ → ℕ → List Char
  | 0, _ => []
  | _ + 1, 0 => []
  | fuel + 1, n + 1 => b58digitsAux fuel ((n + 1) / 58) ++ [alph ((n + 1) % 58)]

/-- The `while num > 0` divmod loop of utils.py 122-125. -/
def b58digits (n : ℕ) : List Char := b58digitsAux n n

/-- The leading-zero-byte loop of utils.py 128-132. -/
def leadingZeros : List ℕ → ℕ
  | [] => 0
  | b :: rest => if b = 0 then leadingZeros rest + 1 else 0

/-- `int.from_bytes(data, 'big')`. -/
def fromBytesBE (data : List ℕ) : ℕ := Nat.ofDigits 256 data.reverse

def base58_encode (data : List ℕ) : List Char :=
  List.replicate (leadingZeros data) '1' ++ b58digits (fromBytesBE data)

def leadingOnes : List Char → ℕ
  | [] => 0
  | c :: rest => if c = '1' then leadingOnes rest + 1 else 0

def alphIndex (c : Char) : ℕ := alphabet.indexOf c

def fromB58Digits (s : List Char) : ℕ :=
  s.foldl (fun acc c => acc * 58 + alphIndex c) 0

def toBytesBE (n : ℕ) : List ℕ := (Nat.digits 256 n).reverse

/-- Reference decoder for the spec's convention: one leading zero byte per
leading `'1'`, the rest the big-endian bytes of the base-58 value. -/
def base58_decode (s : List Char) : List ℕ :=
  List.replicate (leadingOnes s) 0 ++
    toBytesBE (fromB58Digits (s.drop (leadingOnes s)))

lemma b58digitsAux_eq : ∀ fuel n : ℕ, n ≤ fuel →
    b58digitsAux fuel n = ((Nat.digits 58 n).map alph).reverse := by
  intro fuel
  induction fuel with
  | zero =>
    intro n hn
    obtain rfl : n = 0 := Nat.le_zero.mp hn
    simp [b58digitsAux]
  | succ fuel ih =>
    intro n hn
    match n with
    | 0 => simp [b58digitsAux]
    | m + 1 =>
      have hlt : (m + 1) / 58 ≤ fuel := by
        have := Nat.div_lt_self (Nat.succ_pos m) (by norm_num : 1 < 58)
        omega
      show b58digitsAux fuel ((m + 1) / 58) ++ [alph ((m + 1) % 58)] = _
      rw [ih _ hlt, Nat.digits_def' (by norm_num : (1 : ℕ) < 58) (Nat.succ_pos m)]
      simp

lemma b58digits_eq (n : ℕ) :
    b58digits n = ((Nat.digits 58 n).map alph).reverse :=
  b58digitsAux_eq n n le_rfl

lemma alphIndex_alph : ∀ d < 58, alphIndex (alph d) = d := by decide

lemma alph_ne_one : ∀ d < 58, d ≠ 0 → alph d ≠ '1' := by decide

lemma take_leadingZeros (data : List ℕ) :
    data.take (leadingZeros data) = List.replicate (leadingZeros data) 0 := by
  induction data with
  | nil => rfl
  | cons b rest ih =>
    by_cases hb : b = 0
    · subst hb
      show List.take (leadingZeros rest + 1) (0 :: rest)
          = List.replicate (leadingZeros rest + 1) 0
      rw [List.take_succ_cons, List.replicate_succ, ih]
    · simp only [leadingZeros, if_neg hb, List.take_zero, List.replicate_zero]

lemma head?_drop_leadingZeros (data : List ℕ) :
    ∀ b, (data.drop (leadingZeros data)).head? = some b → b ≠ 0 := by
  induction data with
  | nil => intro b h; simp at h
  | cons x rest ih =>
    intro b h
    by_cases hx : x = 0
    · subst hx
      simp only [leadingZeros, if_pos rfl, List.drop_succ_cons] at h
      exact ih b h
    · simp only [leadingZeros, if_neg hx, List.drop_zero, List.head?_cons,
        Option.some.injEq] at h
      subst h
      exact hx

lemma ofDigits_replicate_zero (b z : ℕ) :
    Nat.ofDigits b (List.replicate z (0 : ℕ)) = 0 := by
  induction z with
  | zero => rfl
  | succ z ih => rw [List.replicate_succ, Nat.ofDigits_cons, ih]; ring

lemma fromBytesBE_replicate_zero_append (z : ℕ) (rest : List ℕ) :
    fromBytesBE (List.replicate z 0 ++ rest) = fromBytesBE rest := by
  unfold fromBytesBE
  rw [List.reverse_append, List.reverse_replicate, Nat.ofDigits_append,
    ofDigits_replicate_zero]
  ring

lemma drop_replicate_append {α : Type} (z : ℕ) (c : α) (s : List α) :
    (List.replicate z c ++ s).drop z = s := by
  have h := List.drop_left (List.replicate z c) s
  rwa [List.length_replicate] at h

lemma leadingOnes_eq_zero_of_head (s : List Char)
    (h : ∀ c, s.head? = some c → c ≠ '1') : leadingOnes s = 0 := by
  cases s with
  | nil => rfl
  | cons c rest =>
    have hc : c ≠ '1' := h c rfl
    simp [leadingOnes, hc]

lemma leadingOnes_replicate_append (z : ℕ) (s : List Char)
    (h : leadingOnes s = 0) :
    leadingOnes (List.replicate z '1' ++ s) = z := by
  induction z with
  | zero => exact h
  | succ z ih =>
    rw [List.replicate_succ, List.cons_append]
    simp [leadingOnes, ih]

lemma leadingOnes_b58digits (n : ℕ) : leadingOnes (b58digits n) = 0 := by
  match n with
  | 0 => rfl
  | m + 1 =>
    rw [b58digits_eq]
    apply leadingOnes_eq_zero_of_head
    intro c hc
    have hne : Nat.digits 58 (m + 1) ≠ [] :=
      Nat.digits_ne_nil_iff_ne_zero.mpr (Nat.succ_ne_zero m)
    rw [List.head?_reverse, List.getLast?_map,
      List.getLast?_eq_getLast _ hne] at hc
    simp only [Option.map_some', Option.some.injEq] at hc
    subst hc
    have hd0 : (Nat.digits 58 (m + 1)).getLast hne ≠ 0 :=
      Nat.getLast_digit_ne_zero 58 (Nat.succ_ne_zero m)
    have hdlt : (Nat.digits 58 (m + 1)).getLast hne < 58 :=
      Nat.digits_lt_base (by norm_num) (List.getLast_mem hne)
    exact alph_ne_one _ hdlt hd0

lemma fromB58Digits_map_reverse (L : List ℕ) (h : ∀ d ∈ L, d < 58) :
    fromB58Digits ((L.map alph).reverse) = Nat.ofDigits 58 L := by
  induction L with
  | nil => rfl
  | cons d L ih =>
    have hd : alphIndex (alph d) = d := alphIndex_alph d (h d (by simp))
    have hrec := ih (fun x hx => h x (by simp [hx]))
    simp only [fromB58Digits] at hrec ⊢
    rw [List.map_cons, List.reverse_cons, List.foldl_append, hrec,
      List.foldl_cons, List.foldl_nil, hd, Nat.ofDigits_cons]
    ring

lemma fromB58Digits_b58digits (n : ℕ) : fromB58Digits (b58digits n) = n := by
  rw [b58digits_eq,
    fromB58Digits_map_reverse _ (fun d hd => Nat.digits_lt_base (by norm_num) hd),
    Nat.ofDigits_digits]

lemma base58_roundtrip (data : List ℕ) (h : ∀ b ∈ data, b < 256) :
    base58_decode (base58_encode data) = data := by
  have hdata : List.replicate (leadingZeros data) 0 ++ data.drop (leadingZeros data)
      = data := by
    rw [← take_leadingZeros]
    exact List.take_append_drop _ _
  have hnum : fromBytesBE data = fromBytesBE (data.drop (leadingZeros data)) := by
    conv_lhs => rw [← hdata]
    exact fromBytesBE_replicate_zero_append _ _
  have henc : base58_encode data
      = List.replicate (leadingZeros data) '1'
        ++ b58digits (fromBytesBE (data.drop (leadingZeros data))) := by
    rw [base58_encode, hnum]
  rw [henc]
  unfold base58_decode
  rw [leadingOnes_replicate_append _ _ (leadingOnes_b58digits _)]
  rw [drop_replicate_append, fromB58Digits_b58digits]
  have htb : toBytesBE (fromBytesBE (data.drop (leadingZeros data)))
      = data.drop (leadingZeros data) := by
    unfold toBytesBE fromBytesBE
    rw [Nat.digits_ofDigits 256 (by norm_num) (data.drop (leadingZeros data)).reverse
      (fun l hl => h l (List.drop_subset _ _ (List.mem_reverse.mp hl)))
      (fun hne => by
        have hlast := List.getLast?_eq_getLast _ hne
        rw [List.getLast?_reverse] at hlast
        exact head?_drop_leadingZeros data _ hlast)]
    exact List.reverse_reverse _
  rw [htb]
  exact hdata

/-- **C4.** `base58_encode` produces the base-58 digits (over the Bitcoin
alphabet) of the input's big-endian integer value, prefixed with exactly one
`'1'` per leading zero byte; the reference decoder for that convention
recovers every byte string; and encoding `bytes([0, 0, 1, 2, 3])` starts with
exactly two `'1'` characters. -/
theorem base58_encode_correct :
    (∀ data : List ℕ, base58_encode data
        = List.replicate (leadingZeros data) '1'
          ++ ((Nat.digits 58 (fromBytesBE data)).map alph).reverse) ∧
    (∀ data : List ℕ, (∀ b ∈ data, b < 256) →
      base58_decode (base58_encode data) = data) ∧
    leadingOnes (base58_encode [0, 0, 1, 2, 3]) = 2 := by
  refine ⟨?_, base58_roundtrip, ?_⟩
  · intro data
    rw [base58_encode, b58digits_eq]
  · decide

/-- Concrete instantiation of `base58_encode_correct`: the round trip on
`bytes([0, 0, 1, 2, 3])`. -/
theorem base58_encode_correct_witness :
    base58_decode (base58_encode [0, 0, 1, 2, 3]) = [0, 0, 1, 2, 3] :=
  base58_encode_correct.2.1 [0, 0, 1, 2, 3] (by decide)

end Scanner
